import Mathlib

/-!
Shallow embedding of the job-description parser
(src/job_parser.py and src/parse_job.py) together with proofs about it.

Strings are modelled as Lean `String`s (lists of characters); Python's
`str.lower`, `str.strip`, `str.title` and the regular expressions used by
the parser are modelled over ASCII, which covers every character the
parser's fixed tables and the repository's sample inputs contain.
Regular-expression search is modelled faithfully per pattern: leftmost
match (the text is scanned suffix by suffix, longest suffix first),
greedy quantifiers with backtracking (a greedy one-character-class
quantifier first tries to consume, and falls back to the continuation at
the current position), alternatives tried in source order. -/

namespace JobParser

/-- The null character, used as an out-of-range default. -/
def NUL : Char := Char.ofNat 0

/-- Model of Python `str.lower` on one character (ASCII). -/
def lc (c : Char) : Char :=
  if c.isUpper then Char.ofNat (c.toNat + 32) else c

/-- Model of Python `str.upper` on one character (ASCII). -/
def uc (c : Char) : Char :=
  if c.isLower then Char.ofNat (c.toNat - 32) else c

/-- Python whitespace (the characters `str.strip` and regex `\s` treat as
space, restricted to ASCII). -/
def isPySpace (c : Char) : Bool :=
  c == ' ' || c == '\t' || c == '\n' || c == Char.ofNat 11 || c == Char.ofNat 12 || c == '\r'

/-- Regex word character `\w` (ASCII): letter, digit or underscore. -/
def isWordChar (c : Char) : Bool :=
  c.isAlpha || c.isDigit || c == '_'

/-- Model of Python `str.strip`: drop whitespace from both ends. -/
def pstrip (s : String) : String :=
  String.mk (((s.data.dropWhile isPySpace).reverse.dropWhile isPySpace).reverse)

/-- Model of Python's substring test `needle in hay` (case sensitive). -/
def containsSub (needle : List Char) : List Char → Bool
  | [] => needle.isPrefixOf []
  | c :: t => needle.isPrefixOf (c :: t) || containsSub needle t

/-- Case-insensitive split of a literal off the front of `suffix`;
returns the consumed characters (original casing) and the rest. -/
def ciSplit : List Char → List Char → Option (List Char × List Char)
  | [], rest => some ([], rest)
  | _ :: _, [] => none
  | c :: l, d :: rest =>
    if lc c == lc d then (ciSplit l rest).map (fun pr => (d :: pr.1, pr.2)) else none

/-- Leftmost-match rule of `re.search`: run the position matcher `f` on
every suffix of the text, longest suffix (earliest position) first. -/
def searchML (f : List Char → Option α) : List Char → Option α
  | [] => f []
  | c :: t =>
    match f (c :: t) with
    | some a => some a
    | none => searchML f t

/-- Greedy `X*` of a one-character class `f` in continuation style: first
try to consume a class character and repeat, on failure fall back to the
continuation `k` at the current position (Python's backtracking order). -/
def starCls (f : Char → Bool) (k : List Char → Option α) : List Char → Option α
  | [] => k []
  | c :: t =>
    if f c then
      match starCls f k t with
      | some r => some r
      | none => k (c :: t)
    else k (c :: t)

/-- Greedy `(\d+)` in continuation style: the continuation receives the
captured digits and the rest; the longest digit run is tried first. -/
def digitsPlus (k : List Char → List Char → Option α) : List Char → Option α
  | [] => none
  | c :: t =>
    if c.isDigit then
      match digitsPlus (fun ds rest => k (c :: ds) rest) t with
      | some r => some r
      | none => k [c] t
    else none

/-- Greedy `(\d+)?`: the digit branch first, then the empty capture. -/
def digitsOpt (k : List Char → List Char → Option α) (s : List Char) : Option α :=
  match digitsPlus k s with
  | some r => some r
  | none => k [] s

/-- Model of Python `str.split(sep)` for a one-character separator. -/
def splitOn (sep : Char) : List Char → List String
  | [] => [""]
  | c :: cs =>
    if c == sep then
      "" :: splitOn sep cs
    else
      match splitOn sep cs with
      | h :: t => String.mk (c :: h.data) :: t
      | [] => [String.mk [c]]

/-- Sentence punctuation of the summary splitter: `.`, `!`, `?`. -/
def isSentPunct (c : Char) : Bool :=
  c == '.' || c == '!' || c == '?'

/-- Model of `re.split(r'[.!?]+', text)`: pieces between maximal runs of
sentence punctuation (the Boolean tracks being inside such a run). -/
def splitPunctAux : List Char → List Char → Bool → List String
  | [], acc, _ => [String.mk acc.reverse]
  | c :: cs, acc, inRun =>
    if isSentPunct c then
      if inRun then splitPunctAux cs acc true
      else String.mk acc.reverse :: splitPunctAux cs [] true
    else splitPunctAux cs (c :: acc) false

/-- `re.split(r'[.!?]+', text)` applied to a string. -/
def sentenceSplit (text : String) : List String :=
  splitPunctAux text.data [] false

/-- Model of Python `sep.join(parts)`. -/
def joinSep (sep : String) : List String → String
  | [] => ""
  | [x] => x
  | x :: y :: t => x ++ sep ++ joinSep sep (y :: t)

/-- Model of Python `int` on a string of decimal digits. -/
def natOfDigits (s : String) : Nat :=
  s.data.foldl (fun n c => 10 * n + (c.toNat - 48)) 0

/-- Model of Python `str.title` (ASCII): a letter is uppercased when the
previous character is not a letter, lowercased otherwise. -/
def pyTitleAux : List Char → Bool → List Char
  | [], _ => []
  | c :: cs, prevAlpha =>
    (if c.isAlpha then (if prevAlpha then lc c else uc c) else c) :: pyTitleAux cs c.isAlpha

/-- Model of Python `str.title`. -/
def pyTitle (s : String) : String :=
  String.mk (pyTitleAux s.data false)

/-! ## Location extraction (`JobDescriptionParser.extract_location`)

The source tries, in order and case-insensitively, the patterns
`location:?\s*([^\n\r]+)`, `based in\s*([^\n\r,]+)`,
`([A-Z][a-z]+,?\s*[A-Z]{2})`, `remote`, `hybrid`, `on-site`, and for the
first one that matches returns `group(1).strip()` when group 1 is truthy,
else `group(0)`.  The last three patterns have no group 1, so reaching
them raises `IndexError`; that exceptional outcome is modelled as `none`. -/

/-- The group `([^\n\r]+)`: a maximal nonempty run of non-newline
characters at the head of the suffix. -/
def locNewlineGroup (s : List Char) : Option (List Char) :=
  if s.takeWhile (fun c => !(c == '\n' || c == '\r')) = [] then none
  else some (s.takeWhile (fun c => !(c == '\n' || c == '\r')))

/-- `\s*([^\n\r]+)` (the tail of the `location:` pattern): greedy
whitespace, backtracking to shorter whitespace runs on failure. -/
def locGroupAs : List Char → Option (List Char)
  | [] => none
  | c :: t =>
    if isPySpace c then
      match locGroupAs t with
      | some g => some g
      | none => locNewlineGroup (c :: t)
    else locNewlineGroup (c :: t)

/-- The group `([^\n\r,]+)` of the `based in` pattern. -/
def locCommaGroup (s : List Char) : Option (List Char) :=
  if s.takeWhile (fun c => !(c == '\n' || c == '\r' || c == ',')) = [] then none
  else some (s.takeWhile (fun c => !(c == '\n' || c == '\r' || c == ',')))

/-- `\s*([^\n\r,]+)` (the tail of the `based in` pattern). -/
def locGroupBs : List Char → Option (List Char)
  | [] => none
  | c :: t =>
    if isPySpace c then
      match locGroupBs t with
      | some g => some g
      | none => locCommaGroup (c :: t)
    else locCommaGroup (c :: t)

/-- `location:?\s*([^\n\r]+)` at the head of a suffix, case-insensitive;
the optional colon is greedy (taken first, dropped on backtracking).
Returns capture group 1. -/
def locLabelM (s : List Char) : Option String :=
  match ciSplit "location".data s with
  | none => none
  | some pr =>
    match
      (match pr.2 with
       | ':' :: r => locGroupAs r
       | _ => none) with
    | some g => some (String.mk g)
    | none => (locGroupAs pr.2).map String.mk

/-- `based in\s*([^\n\r,]+)` at the head of a suffix, case-insensitive. -/
def locBasedM (s : List Char) : Option String :=
  match ciSplit "based in".data s with
  | none => none
  | some pr => (locGroupBs pr.2).map String.mk

/-- `[A-Z]{2}` under `re.IGNORECASE`: two letters at the head. -/
def twoAlpha : List Char → Option (List Char)
  | a :: b :: _ => if a.isAlpha && b.isAlpha then some [a, b] else none
  | _ => none

/-- `\s*[A-Z]{2}` under `re.IGNORECASE`: greedy whitespace with
backtracking, then two letters. -/
def citySpaceTail : List Char → Option (List Char)
  | [] => none
  | c :: t =>
    if isPySpace c then
      match citySpaceTail t with
      | some m => some (c :: m)
      | none => twoAlpha (c :: t)
    else twoAlpha (c :: t)

/-- `,?\s*[A-Z]{2}`: the comma branch is tried first (greedy `,?`). -/
def cityTailM (s : List Char) : Option (List Char) :=
  match s with
  | c :: t =>
    if c == ',' then
      match citySpaceTail t with
      | some m => some (c :: m)
      | none => citySpaceTail (c :: t)
    else citySpaceTail (c :: t)
  | [] => citySpaceTail []

/-- `[a-z]+,?\s*[A-Z]{2}` under `re.IGNORECASE`: at least one letter,
greedy (the longer letter run is tried before stopping), then the tail.
Returns the consumed characters. -/
def cityPlus : List Char → Option (List Char)
  | [] => none
  | c :: t =>
    if c.isAlpha then
      match cityPlus t with
      | some m => some (c :: m)
      | none => (cityTailM t).map (fun m => c :: m)
    else none

/-- `([A-Z][a-z]+,?\s*[A-Z]{2})` under `re.IGNORECASE` at the head of a
suffix.  The whole match is also capture group 1. -/
def cityM : List Char → Option (List Char)
  | [] => none
  | c :: t =>
    if c.isAlpha then (cityPlus t).map (fun m => c :: m) else none

/-- `JobDescriptionParser.extract_location`.  `none` models the
`IndexError` raised by `matches.group(1)` when one of the group-less
keyword patterns is the first to match. -/
def extract_location (text : String) : Option String :=
  match searchML locLabelM text.data with
  | some g => some (pstrip g)
  | none =>
    match searchML locBasedM text.data with
    | some g => some (pstrip g)
    | none =>
      match searchML cityM text.data with
      | some m => some (pstrip (String.mk m))
      | none =>
        if containsSub "remote".data (text.data.map lc) then none
        else if containsSub "hybrid".data (text.data.map lc) then none
        else if containsSub "on-site".data (text.data.map lc) then none
        else some "Not specified"

/-! ## Years-of-experience extraction
(`JobDescriptionParser.extract_years_of_experience`)

The source tries, in order, `re.findall` with the case-insensitive
patterns
`(\d+)[\+\-\s]*(?:to|-)?\s*(\d+)?\s*years?\s*(?:of\s*)?experience`,
`(\d+)\+\s*years?`, `minimum\s*(\d+)\s*years?`, `at\s*least\s*(\d+)\s*years?`
and uses the first match of the first pattern that has any (only
`matches[0]` is consumed, so this is a leftmost search).  Each matcher
below hand-compiles its pattern, segment by segment from the back. -/

/-- The character class `[\+\-\s]`. -/
def expClassChar (c : Char) : Bool :=
  c == '+' || c == '-' || isPySpace c

/-- `experience` (the final literal of the range pattern), yielding the
captures `g`. -/
def expExper (g : String × String) (s : List Char) : Option (String × String) :=
  (ciSplit "experience".data s).map (fun _ => g)

/-- `(?:of\s*)?experience`: the `of` branch first, then the empty one. -/
def expOfPart (g : String × String) (s : List Char) : Option (String × String) :=
  match
    (match ciSplit "of".data s with
     | some pr => starCls isPySpace (expExper g) pr.2
     | none => none) with
  | some r => some r
  | none => expExper g s

/-- `years?\s*(?:of\s*)?experience`: the `s` is greedy (the branch that
consumes it is tried first). -/
def expYearsPart (g : String × String) (s : List Char) : Option (String × String) :=
  match ciSplit "year".data s with
  | none => none
  | some pr =>
    match
      (match pr.2 with
       | c :: t => if lc c == 's' then starCls isPySpace (expOfPart g) t else none
       | [] => none) with
    | some r => some r
    | none => starCls isPySpace (expOfPart g) pr.2

/-- `(\d+)?\s*years?…`: the optional second capture group (greedy). -/
def expG2Part (g1 : String) (s : List Char) : Option (String × String) :=
  digitsOpt (fun g2 r => starCls isPySpace (expYearsPart (g1, String.mk g2)) r) s

/-- `(?:to|-)?\s*(\d+)?…`: alternatives `to`, `-`, empty, in order. -/
def expToDashPart (g1 : String) (s : List Char) : Option (String × String) :=
  match
    (match ciSplit "to".data s with
     | some pr => starCls isPySpace (expG2Part g1) pr.2
     | none => none) with
  | some r => some r
  | none =>
    match
      (match s with
       | '-' :: t => starCls isPySpace (expG2Part g1) t
       | _ => none) with
    | some r => some r
    | none => starCls isPySpace (expG2Part g1) s

/-- The full range pattern
`(\d+)[\+\-\s]*(?:to|-)?\s*(\d+)?\s*years?\s*(?:of\s*)?experience`
at the head of a suffix, returning the two captured groups (the second
is `""` when absent). -/
def expPat1M (s : List Char) : Option (String × String) :=
  digitsPlus (fun g1 r => starCls expClassChar (expToDashPart (String.mk g1)) r) s

/-- `(\d+)\+\s*years?` at the head of a suffix. -/
def expPat2M (s : List Char) : Option String :=
  digitsPlus
    (fun g r =>
      match r with
      | '+' :: t =>
        starCls isPySpace (fun r2 => (ciSplit "year".data r2).map (fun _ => String.mk g)) t
      | _ => none)
    s

/-- `minimum\s*(\d+)\s*years?` at the head of a suffix. -/
def expPat3M (s : List Char) : Option String :=
  match ciSplit "minimum".data s with
  | none => none
  | some pr =>
    starCls isPySpace
      (fun r =>
        digitsPlus
          (fun g r2 =>
            starCls isPySpace (fun r3 => (ciSplit "year".data r3).map (fun _ => String.mk g)) r2)
          r)
      pr.2

/-- `at\s*least\s*(\d+)\s*years?` at the head of a suffix. -/
def expPat4M (s : List Char) : Option String :=
  match ciSplit "at".data s with
  | none => none
  | some pr =>
    starCls isPySpace
      (fun r =>
        match ciSplit "least".data r with
        | none => none
        | some pr2 =>
          starCls isPySpace
            (fun r2 =>
              digitsPlus
                (fun g r3 =>
                  starCls isPySpace (fun r4 => (ciSplit "year".data r4).map (fun _ => String.mk g))
                    r3)
                r2)
            pr2.2)
      pr.2

/-- First (leftmost) match of the range pattern in `text`. -/
def expSearch1 (text : String) : Option (String × String) :=
  searchML expPat1M text.data

/-- First match of `(\d+)\+\s*years?` in `text`. -/
def expSearch2 (text : String) : Option String :=
  searchML expPat2M text.data

/-- First match of `minimum\s*(\d+)\s*years?` in `text`. -/
def expSearch3 (text : String) : Option String :=
  searchML expPat3M text.data

/-- First match of `at\s*least\s*(\d+)\s*years?` in `text`. -/
def expSearch4 (text : String) : Option String :=
  searchML expPat4M text.data

/-- Rendering of the range pattern's captures:
`years = [int(x) for x in matches[0] if x.isdigit()]`, then
`"N-M years"` when both groups captured, `"N+ years"` otherwise. -/
def renderYears (g1 g2 : String) : String :=
  if g2 == "" then Nat.repr (natOfDigits g1) ++ "+ years"
  else Nat.repr (natOfDigits g1) ++ "-" ++ Nat.repr (natOfDigits g2) ++ " years"

/-- `JobDescriptionParser.extract_years_of_experience`. -/
def extract_years_of_experience (text : String) : String :=
  match expSearch1 text with
  | some g => renderYears g.1 g.2
  | none =>
    match expSearch2 text with
    | some g => g ++ "+ years"
    | none =>
      match expSearch3 text with
      | some g => g ++ "+ years"
      | none =>
        match expSearch4 text with
        | some g => g ++ "+ years"
        | none => "Not specified"

/-! ## Skill extraction (`JobDescriptionParser.extract_skills`)

Each of the six `skill_patterns` is `\b(?:LIT1|LIT2|…)\b` under
`re.IGNORECASE`; `re.findall` scans left to right, non-overlapping,
alternatives tried in order, and yields the matched text in its original
casing.  Results accumulate into a set, modelled as an
insertion-ordered duplicate-free list. -/

/-- Word-boundary test between a last consumed character and the head of
the remaining text (`\b` after a match). -/
def boundaryAfter (lastC : Char) (rest : List Char) : Bool :=
  isWordChar lastC != (match rest with | [] => false | r :: _ => isWordChar r)

/-- First alternative that matches at the head of `suffix` and is
followed by a word boundary; returns matched text and rest. -/
def altBoundMatch (alts : List String) (suffix : List Char) : Option (List Char × List Char) :=
  alts.findSome? (fun a =>
    match ciSplit a.data suffix with
    | none => none
    | some pr =>
      match pr.1.getLast? with
      | none => none
      | some lastC => if boundaryAfter lastC pr.2 then some pr else none)

/-- `re.findall` for one `\b(?:…)\b` pattern: walk the text left to
right (`prev` is the character before the current position, `none` at
the start), match only at word boundaries, continue after each match. -/
def findallWAux (alts : List String) : Nat → List Char → Option Char → List String
  | 0, _, _ => []
  | _ + 1, [], _ => []
  | n + 1, c :: cs, prev =>
    let boundaryHere := (match prev with | none => false | some pc => isWordChar pc) != isWordChar c
    match (if boundaryHere then altBoundMatch alts (c :: cs) else none) with
    | some pr => String.mk pr.1 :: findallWAux alts n pr.2 (pr.1.getLast? )
    | none => findallWAux alts n cs (some c)

/-- `re.findall(pattern, text, re.IGNORECASE)` for one skill pattern. -/
def findallW (alts : List String) (text : String) : List String :=
  findallWAux alts (text.data.length + 1) text.data none

/-- The six `skill_patterns` of the source, as their alternation lists. -/
def skill_patterns : List (List String) :=
  [["Python", "Java", "JavaScript", "TypeScript", "C++", "C#", "Go", "Rust", "Ruby", "PHP", "Swift", "Kotlin"],
   ["React", "Angular", "Vue", "Node.js", "Express", "Django", "Flask", "Spring", "Laravel"],
   ["AWS", "Azure", "GCP", "Docker", "Kubernetes", "Git", "Jenkins", "CI/CD"],
   ["SQL", "MongoDB", "PostgreSQL", "MySQL", "Redis", "Elasticsearch"],
   ["Machine Learning", "ML", "AI", "Data Science", "Analytics", "Statistics"],
   ["Agile", "Scrum", "DevOps", "Microservices", "REST", "API", "GraphQL"]]

/-- The `skill_keywords` list of the source's manual extraction pass. -/
def skill_keywords : List String :=
  ["python", "java", "javascript", "typescript", "react", "angular", "vue",
   "node.js", "django", "flask", "spring", "aws", "azure", "docker",
   "kubernetes", "git", "sql", "mongodb", "postgresql", "machine learning",
   "data science", "agile", "scrum", "devops", "rest api", "microservices"]

/-- `set.add`: append when absent, keeping the list duplicate-free. -/
def sinsert (l : List String) (x : String) : List String :=
  if x ∈ l then l else l ++ [x]

/-- `JobDescriptionParser.extract_skills`: the regex pass over
`skill_patterns`, then the manual keyword pass (title-cased additions). -/
def extract_skills (text : String) : List String :=
  skill_keywords.foldl
    (fun acc kw => if containsSub kw.data (text.data.map lc) then sinsert acc (pyTitle kw) else acc)
    (skill_patterns.foldl (fun acc pat => (findallW pat text).foldl sinsert acc) [])

/-! ## Seniority classification
(`JobDescriptionParser.extract_seniority_level`) -/

/-- The ordered `seniority_keywords` table of the source. -/
def seniority_keywords : List (String × List String) :=
  [("junior", ["junior", "entry", "associate", "graduate", "intern"]),
   ("mid", ["mid", "intermediate", "regular", "software engineer", "developer"]),
   ("senior", ["senior", "sr", "lead", "principal", "staff", "expert"]),
   ("manager", ["manager", "director", "head", "chief", "vp", "vice president"])]

/-- Does any keyword of a level occur in the lowercased text? -/
def levelMatches (kws : List String) (tl : List Char) : Bool :=
  kws.any (fun k => containsSub k.data tl)

/-- `JobDescriptionParser.extract_seniority_level`: first level (in table
order) with a keyword occurring in the lowercased text; default `mid`. -/
def extract_seniority_level (text : String) : String :=
  match seniority_keywords.find? (fun e => levelMatches e.2 (text.data.map lc)) with
  | some e => e.1
  | none => "mid"

/-! ## Job-title extraction (`JobDescriptionParser.extract_job_title`) -/

/-- The role-indicating words checked against each line. -/
def title_keywords : List String :=
  ["engineer", "developer", "manager", "analyst", "scientist"]

/-- `JobDescriptionParser.extract_job_title`: first of the first five
lines whose stripped, lowercased content contains a role word; the
stripped line is returned. -/
def extract_job_title (text : String) : String :=
  match
    (((splitOn '\n' text.data).take 5).map pstrip).find?
      (fun l => title_keywords.any (fun k => containsSub k.data (l.data.map lc))) with
  | some l => l
  | none => "Position not clearly specified"

/-! ## Summary generation (`JobDescriptionParser.generate_summary`) -/

/-- The loop over `sentences[:3]`: stripped fragments, among the first
three, whose stripped length exceeds 20. -/
def summary_parts (text : String) : List String :=
  (((sentenceSplit text).take 3).filter (fun s => 20 < (pstrip s).length)).map pstrip

/-- `JobDescriptionParser.generate_summary`: join the first two
qualifying fragments with `". "`, falling back to a templated sentence,
then append up to three skills when any were extracted. -/
def generate_summary (text job_title : String) (skills : List String) : String :=
  (if summary_parts text = [] then "Looking for a " ++ job_title
   else joinSep ". " ((summary_parts text).take 2)) ++
  (if skills = [] then ""
   else " with expertise in " ++ joinSep ", " (skills.take 3) ++ ".")

/-! ## Record assembly (`JobDescriptionParser.parse`) -/

/-- A JSON-like value of the parser's output record. -/
inductive JVal where
  | s : String → JVal
  | arr : List String → JVal
deriving DecidableEq, Repr

/-- The reserved placeholder token. -/
def placeholderToken : String := "\x7bjob_description\x7d"

/-- The parser's error message. -/
def parseErrorMessage : String :=
  "No job description provided. Please replace \x7bjob_description\x7d with actual job description text."

/-- `JobDescriptionParser.parse`: the error record for empty input or
input whose stripped content is exactly the placeholder token, otherwise
the six-key record.  `none` models an uncaught `IndexError` escaping
from `extract_location` (shown impossible below). -/
def parse (job_description : String) : Option (List (String × JVal)) :=
  if job_description = "" ∨ pstrip job_description = placeholderToken then
    some [("error", JVal.s parseErrorMessage)]
  else
    match extract_location job_description with
    | none => none
    | some preferred_location =>
      some [("jobTitle", JVal.s (extract_job_title job_description)),
            ("seniorityLevel", JVal.s (extract_seniority_level job_description)),
            ("requiredSkills", JVal.arr (extract_skills job_description)),
            ("yearsOfExperience", JVal.s (extract_years_of_experience job_description)),
            ("preferredLocation", JVal.s preferred_location),
            ("summary", JVal.s (generate_summary job_description (extract_job_title job_description) (extract_skills job_description)))]

/-- Field lookup in an output record. -/
def getField (r : List (String × JVal)) (k : String) : Option JVal :=
  (r.find? (fun e => e.1 == k)).map (fun e => e.2)

/-! ## The wrapper (`parse_job.py`, `parse_job_description`) -/

/-- A value of the wrapper's output record, which may nest the example
record. -/
inductive WVal where
  | s : String → WVal
  | arr : List String → WVal
  | obj : List (String × JVal) → WVal
deriving DecidableEq, Repr

/-- The wrapper's illustrative example record. -/
def exampleRecord : List (String × JVal) :=
  [("jobTitle", JVal.s "Senior Software Engineer"),
   ("seniorityLevel", JVal.s "senior"),
   ("requiredSkills", JVal.arr ["Python", "JavaScript", "React", "AWS"]),
   ("yearsOfExperience", JVal.s "5+ years"),
   ("preferredLocation", JVal.s "San Francisco, CA"),
   ("summary", JVal.s "Senior Software Engineer position requiring 5+ years experience with modern web technologies.")]

/-- The wrapper's placeholder response. -/
def placeholderErrorRecord : List (String × WVal) :=
  [("error", WVal.s "Please replace \x7bjob_description\x7d with actual job description text"),
   ("example", WVal.obj exampleRecord)]

/-- Injection of a parser record into the wrapper's value type. -/
def jToW (e : String × JVal) : String × WVal :=
  match e.2 with
  | JVal.s v => (e.1, WVal.s v)
  | JVal.arr v => (e.1, WVal.arr v)

/-- `parse_job_description` of `src/parse_job.py`: short-circuit when the
input contains the placeholder token anywhere, else delegate to `parse`. -/
def parse_job_description (job_description_text : String) : Option (List (String × WVal)) :=
  if containsSub placeholderToken.data job_description_text.data then
    some placeholderErrorRecord
  else (parse job_description_text).map (fun r => r.map jToW)

/-- The apostrophe character. -/
def apos : Char := Char.ofNat 39

/-- The sample job description of `main` in `src/job_parser.py`
(exact content of the triple-quoted literal, including indentation). -/
def sample_job_description : String :=
  joinSep "\n"
    ["",
     "    Senior Software Engineer - Full Stack Development",
     "    ",
     "    We are seeking a Senior Software Engineer to join our dynamic team. The ideal candidate will have 5+ years of experience in full-stack development and be proficient in modern web technologies.",
     "    ",
     "    Requirements:",
     "    - 5+ years of professional software development experience",
     "    - Strong proficiency in Python, JavaScript, and React",
     "    - Experience with AWS cloud services",
     "    - Knowledge of Docker and Kubernetes",
     "    - Familiarity with Agile development methodologies",
     "    - Bachelor" ++ String.mk [apos] ++ "s degree in Computer Science or related field",
     "    ",
     "    Location: San Francisco, CA (Hybrid work arrangement available)",
     "    ",
     "    Join our innovative team and help build cutting-edge applications that serve millions of users worldwide.",
     "    "]

/-! ## Auxiliary lemmas -/

theorem getD_drop (p : Nat) : ∀ (cs : List Char) (j : Nat) (d : Char),
    (cs.drop p).getD j d = cs.getD (p + j) d := by
  induction p with
  | zero => intro cs j d; simp
  | succ p ih =>
    intro cs j d
    cases cs with
    | nil => simp
    | cons c t =>
      rw [List.drop_succ_cons, ih t j d, show p + 1 + j = (p + j) + 1 by omega,
        List.getD_cons_succ]

theorem getD_map (f : Char → Char) : ∀ (l : List Char) (i : Nat) (d : Char),
    i < l.length → (l.map f).getD i d = f (l.getD i d) := by
  intro l
  induction l with
  | nil => intro i d h; simp at h
  | cons c t ih =>
    intro i d h
    cases i with
    | zero => simp
    | succ i => simpa using ih i d (by simpa using h)

theorem isPrefixOf_getD : ∀ (n h : List Char), n.isPrefixOf h = true →
    n.length ≤ h.length ∧ ∀ j, j < n.length → h.getD j NUL = n.getD j NUL := by
  intro n
  induction n with
  | nil => intro h _; simp
  | cons c t ih =>
    intro h hp
    cases h with
    | nil => simp [List.isPrefixOf] at hp
    | cons d u =>
      simp only [List.isPrefixOf, Bool.and_eq_true, beq_iff_eq] at hp
      obtain ⟨rfl, hp⟩ := hp
      obtain ⟨hl, hg⟩ := ih u hp
      refine ⟨by simpa using hl, ?_⟩
      intro j hj
      cases j with
      | zero => simp
      | succ j => simpa using hg j (by simpa using hj)

theorem containsSub_exists (n : List Char) : ∀ (h : List Char),
    containsSub n h = true → ∃ p, n.isPrefixOf (h.drop p) = true := by
  intro h
  induction h with
  | nil => intro hc; exact ⟨0, by simpa [containsSub] using hc⟩
  | cons c t ih =>
    intro hc
    simp only [containsSub, Bool.or_eq_true] at hc
    rcases hc with hc | hc
    · exact ⟨0, by simpa using hc⟩
    · obtain ⟨p, hp⟩ := ih hc
      exact ⟨p + 1, by simpa using hp⟩

theorem lc_alpha (c : Char) (h : (lc c).isAlpha = true) : c.isAlpha = true := by
  by_cases hu : c.isUpper = true
  · simp [Char.isAlpha, hu]
  · rw [lc, if_neg hu] at h
    exact h

theorem alpha_of_lc_eq (c a : Char) (ha : a.isAlpha = true) (h : lc c = a) :
    c.isAlpha = true :=
  lc_alpha c (by rw [h]; exact ha)

/-- A letter is none of the Python whitespace characters. -/
theorem alpha_not_space (c : Char) (h : c.isAlpha = true) : isPySpace c = false := by
  cases hc : isPySpace c
  · rfl
  · exfalso
    simp only [isPySpace, Bool.or_eq_true, beq_iff_eq] at hc
    rcases hc with ((((rfl | rfl) | rfl) | rfl) | rfl) | rfl <;> exact absurd h (by decide)

/-- A letter is not equal (as `==`) to any non-letter character. -/
theorem alpha_beq_false (c x : Char) (hx : x.isAlpha = false) (h : c.isAlpha = true) :
    (c == x) = false := by
  cases hcx : c == x
  · rfl
  · rw [eq_of_beq hcx] at h
    rw [h] at hx
    cases hx

/-! ## Totality of `extract_location`

The three keyword patterns `remote`, `hybrid`, `on-site` have no capture
group, so the code's `matches.group(1)` would raise if one of them were
the first pattern to match.  They never are: each keyword contains four
consecutive letters, and under `re.IGNORECASE` the earlier City/State
pattern `([A-Z][a-z]+,?\s*[A-Z]{2})` matches any four consecutive
letters. -/

theorem searchML_isSome (f : List Char → Option α) :
    ∀ (cs : List Char) (p : Nat),
      (f (cs.drop p)).isSome = true → (searchML f cs).isSome = true := by
  intro cs
  induction cs with
  | nil => intro p h; simpa [searchML] using h
  | cons c t ih =>
    intro p h
    cases hf : f (c :: t) with
    | some a => simp [searchML, hf]
    | none =>
      cases p with
      | zero => rw [List.drop_zero, hf] at h; simp at h
      | succ p =>
        rw [List.drop_succ_cons] at h
        simpa [searchML, hf] using ih p h

theorem twoAlpha_isSome (c d : Char) (t : List Char)
    (hc : c.isAlpha = true) (hd : d.isAlpha = true) :
    (twoAlpha (c :: d :: t)).isSome = true := by
  simp [twoAlpha, hc, hd]

theorem citySpaceTail_isSome (c d : Char) (t : List Char)
    (hc : c.isAlpha = true) (hd : d.isAlpha = true) :
    (citySpaceTail (c :: d :: t)).isSome = true := by
  rw [citySpaceTail]
  rw [if_neg (by rw [alpha_not_space c hc]; exact fun hh => Bool.noConfusion hh)]
  exact twoAlpha_isSome c d t hc hd

theorem cityTailM_isSome (c d : Char) (t : List Char)
    (hc : c.isAlpha = true) (hd : d.isAlpha = true) :
    (cityTailM (c :: d :: t)).isSome = true := by
  rw [cityTailM]
  rw [if_neg (by rw [alpha_beq_false c ',' (by decide) hc]; exact fun hh => Bool.noConfusion hh)]
  exact citySpaceTail_isSome c d t hc hd

theorem cityPlus_isSome (b c d : Char) (t : List Char)
    (hb : b.isAlpha = true) (hc : c.isAlpha = true) (hd : d.isAlpha = true) :
    (cityPlus (b :: c :: d :: t)).isSome = true := by
  rw [cityPlus, if_pos hb]
  cases hp : cityPlus (c :: d :: t) with
  | some m => simp
  | none =>
    have := cityTailM_isSome c d t hc hd
    cases hm : cityTailM (c :: d :: t) with
    | none => rw [hm] at this; cases this
    | some m => simp [hm]

theorem cityM_isSome (s : List Char) (hlen : 3 < s.length)
    (h0 : (s.getD 0 NUL).isAlpha = true) (h1 : (s.getD 1 NUL).isAlpha = true)
    (h2 : (s.getD 2 NUL).isAlpha = true) (h3 : (s.getD 3 NUL).isAlpha = true) :
    (cityM s).isSome = true := by
  cases s with
  | nil => simp at hlen
  | cons a s1 =>
  cases s1 with
  | nil => simp at hlen
  | cons b s2 =>
  cases s2 with
  | nil => simp at hlen
  | cons c s3 =>
  cases s3 with
  | nil => simp at hlen
  | cons d t =>
  simp only [List.getD_cons_zero, List.getD_cons_succ] at h0 h1 h2 h3
  rw [cityM, if_pos h0]
  have := cityPlus_isSome b c d t h1 h2 h3
  cases hp : cityPlus (b :: c :: d :: t) with
  | none => rw [hp] at this; cases this
  | some m => simp [hp]

theorem contains_kw_city (kw : List Char) (o : Nat)
    (hko : o + 3 < kw.length)
    (ha0 : (kw.getD o NUL).isAlpha = true)
    (ha1 : (kw.getD (o + 1) NUL).isAlpha = true)
    (ha2 : (kw.getD (o + 2) NUL).isAlpha = true)
    (ha3 : (kw.getD (o + 3) NUL).isAlpha = true)
    (cs : List Char) (hc : containsSub kw (cs.map lc) = true) :
    (searchML cityM cs).isSome = true := by
  obtain ⟨p, hp⟩ := containsSub_exists kw _ hc
  obtain ⟨hl, hg⟩ := isPrefixOf_getD kw _ hp
  rw [List.length_drop, List.length_map] at hl
  have hcs : p + kw.length ≤ cs.length := by omega
  have key : ∀ j, j < kw.length → lc (cs.getD (p + j) NUL) = kw.getD j NUL := by
    intro j hj
    have hjlen : j < (cs.drop p).length := by rw [List.length_drop]; omega
    have := hg j hj
    rw [← List.map_drop, getD_map lc _ _ NUL hjlen, getD_drop] at this
    exact this
  apply searchML_isSome cityM cs (p + o)
  apply cityM_isSome
  · rw [List.length_drop]; omega
  all_goals rw [getD_drop]
  · exact alpha_of_lc_eq _ _ ha0 (by rw [show p + o + 0 = p + o by omega]; exact key o (by omega))
  · exact alpha_of_lc_eq _ _ ha1
      (by rw [show p + o + 1 = p + (o + 1) by omega]; exact key (o + 1) (by omega))
  · exact alpha_of_lc_eq _ _ ha2
      (by rw [show p + o + 2 = p + (o + 2) by omega]; exact key (o + 2) (by omega))
  · exact alpha_of_lc_eq _ _ ha3
      (by rw [show p + o + 3 = p + (o + 3) by omega]; exact key (o + 3) (by omega))

theorem extract_location_isSome (text : String) : (extract_location text).isSome = true := by
  rw [extract_location]
  cases h1 : searchML locLabelM text.data with
  | some g => rfl
  | none =>
  cases h2 : searchML locBasedM text.data with
  | some g => rfl
  | none =>
  cases h3 : searchML cityM text.data with
  | some g => rfl
  | none =>
  by_cases hr : containsSub "remote".data (text.data.map lc) = true
  · have := contains_kw_city "remote".data 0 (by decide) (by decide) (by decide) (by decide)
      (by decide) text.data hr
    rw [h3] at this
    cases this
  by_cases hh : containsSub "hybrid".data (text.data.map lc) = true
  · have := contains_kw_city "hybrid".data 0 (by decide) (by decide) (by decide) (by decide)
      (by decide) text.data hh
    rw [h3] at this
    cases this
  by_cases ho : containsSub "on-site".data (text.data.map lc) = true
  · have := contains_kw_city "on-site".data 3 (by decide) (by decide) (by decide) (by decide)
      (by decide) text.data ho
    rw [h3] at this
    cases this
  rw [if_neg hr, if_neg hh, if_neg ho]
  rfl

/-! ## Duplicate-freeness of `extract_skills` -/

theorem sinsert_nodup (l : List String) (x : String) (h : l.Nodup) :
    (sinsert l x).Nodup := by
  rw [sinsert]
  by_cases hx : x ∈ l
  · rw [if_pos hx]; exact h
  · rw [if_neg hx]
    rw [List.nodup_append]
    refine ⟨h, List.nodup_singleton x, ?_⟩
    intro a ha hax
    rw [List.mem_singleton] at hax
    subst hax
    exact hx ha

theorem foldl_sinsert_nodup (xs : List String) :
    ∀ l : List String, l.Nodup → (xs.foldl sinsert l).Nodup := by
  induction xs with
  | nil => intro l h; exact h
  | cons x xs ih => intro l h; exact ih _ (sinsert_nodup l x h)

theorem regex_fold_nodup (text : String) (pats : List (List String)) :
    ∀ acc : List String, acc.Nodup →
      (pats.foldl (fun acc pat => (findallW pat text).foldl sinsert acc) acc).Nodup := by
  induction pats with
  | nil => intro acc h; exact h
  | cons p ps ih =>
    intro acc h
    rw [List.foldl_cons]
    exact ih _ (foldl_sinsert_nodup _ _ h)

theorem keyword_fold_nodup (text : String) (kws : List String) :
    ∀ acc : List String, acc.Nodup →
      (kws.foldl
        (fun acc kw =>
          if containsSub kw.data (text.data.map lc) then sinsert acc (pyTitle kw) else acc)
        acc).Nodup := by
  induction kws with
  | nil => intro acc h; exact h
  | cons k ks ih =>
    intro acc h
    rw [List.foldl_cons]
    by_cases hc : containsSub k.data (text.data.map lc) = true
    · simpa [hc] using ih _ (sinsert_nodup acc (pyTitle k) h)
    · simpa [hc] using ih _ h

theorem extract_skills_nodup (text : String) : (extract_skills text).Nodup := by
  rw [extract_skills]
  exact keyword_fold_nodup _ _ _ (regex_fold_nodup _ _ _ List.nodup_nil)

/-! ## First-match characterisation of `List.find?` -/

theorem find?_first {α : Type} (p : α → Bool) :
    ∀ (l : List α) (i : Nat) (hi : i < l.length),
      p (l.get ⟨i, hi⟩) = true →
      (∀ j (hj : j < i), p (l.get ⟨j, Nat.lt_trans hj hi⟩) = false) →
      l.find? p = some (l.get ⟨i, hi⟩) := by
  intro l
  induction l with
  | nil => intro i hi; simp at hi
  | cons a t ih =>
    intro i hi hp hprev
    cases i with
    | zero =>
      simp only [List.get] at hp
      simp [List.find?_cons, hp]
    | succ i =>
      have h0 : p a = false := by simpa using hprev 0 (Nat.succ_pos i)
      rw [List.find?_cons, h0]
      simp only [List.get] at hp
      have := ih i (by simpa using hi) hp
        (fun j hj => by simpa using hprev (j + 1) (by omega))
      simp only [List.get]
      exact this

/-! ## The claims -/

/-- Claim C2 (corrected): for every input that is empty or whose stripped
content is exactly the placeholder token, `parse` returns a record
containing exactly the key `error`.  (The claim's whitespace-only case is
dropped: the code's falsiness test does not catch it, see the
counterexample.) -/
theorem c2_error_record (jd : String)
    (h : jd = "" ∨ pstrip jd = placeholderToken) :
    (parse jd).map (fun r => r.map Prod.fst) = some ["error"] := by
  rw [parse, if_pos h]
  rfl

/-- Witness for C2's theorem at the empty input. -/
theorem c2_error_record_witness :
    (parse "").map (fun r => r.map Prod.fst) = some ["error"] :=
  c2_error_record "" (Or.inl rfl)

/-- Counterexample to claim C2 as stated: the whitespace-only input
`" "` is not caught by `if not job_description or strip() == token`, so
`parse` produces the full six-key record, not the `error` record. -/
theorem c2_counterexample :
    (parse " ").map (fun r => r.map Prod.fst) =
      some ["jobTitle", "seniorityLevel", "requiredSkills", "yearsOfExperience",
        "preferredLocation", "summary"]
    ∧ (["jobTitle", "seniorityLevel", "requiredSkills", "yearsOfExperience",
        "preferredLocation", "summary"] : List String) ≠ ["error"] :=
  ⟨by decide, by decide⟩

/-- Claim C3 (confirmed): whenever the input contains the literal
placeholder token anywhere, the wrapper `parse_job_description`
short-circuits to the fixed error/placeholder record (which carries the
`error` key) without invoking any extraction. -/
theorem c3_wrapper_short_circuit (t : String)
    (h : containsSub placeholderToken.data t.data = true) :
    parse_job_description t = some placeholderErrorRecord
    ∧ placeholderErrorRecord.map Prod.fst = ["error", "example"] := by
  constructor
  · rw [parse_job_description, if_pos h]
  · rfl

/-- Witness for C3's theorem at the placeholder token itself. -/
theorem c3_wrapper_short_circuit_witness :
    parse_job_description placeholderToken = some placeholderErrorRecord :=
  (c3_wrapper_short_circuit placeholderToken (by decide)).1

/-- Claim C5 (confirmed): every non-empty input whose stripped content is
not the placeholder token yields a record with exactly the six documented
keys and no `error` key. -/
theorem c5_six_keys (jd : String) (h1 : jd ≠ "") (h2 : pstrip jd ≠ placeholderToken) :
    ∃ r, parse jd = some r
      ∧ r.map Prod.fst = ["jobTitle", "seniorityLevel", "requiredSkills",
          "yearsOfExperience", "preferredLocation", "summary"]
      ∧ "error" ∉ r.map Prod.fst := by
  have hcond : ¬(jd = "" ∨ pstrip jd = placeholderToken) := by
    rintro (h | h)
    · exact h1 h
    · exact h2 h
  rw [parse, if_neg hcond]
  obtain ⟨loc, hloc⟩ := Option.isSome_iff_exists.mp (extract_location_isSome jd)
  rw [hloc]
  refine ⟨_, rfl, rfl, ?_⟩
  show "error" ∉ (["jobTitle", "seniorityLevel", "requiredSkills",
    "yearsOfExperience", "preferredLocation", "summary"] : List String)
  decide

/-- Witness for C5's theorem at the input `"x"`. -/
theorem c5_six_keys_witness :
    ∃ r, parse "x" = some r
      ∧ r.map Prod.fst = ["jobTitle", "seniorityLevel", "requiredSkills",
          "yearsOfExperience", "preferredLocation", "summary"]
      ∧ "error" ∉ r.map Prod.fst :=
  c5_six_keys "x" (by decide) (by decide)

/-- Claim C6 (confirmed): `extract_seniority_level` scans the table in
its fixed order junior, mid, senior, manager and returns the first level
with a case-insensitive keyword hit even if a later level also matches;
the sample input containing both a junior and a senior cue returns
`"junior"`, and with no hit at all the default is `"mid"`. -/
theorem c6_seniority_first_match (text : String) :
    (∀ i (hi : i < seniority_keywords.length),
        levelMatches (seniority_keywords.get ⟨i, hi⟩).2 (text.data.map lc) = true →
        (∀ j (hj : j < i),
          levelMatches (seniority_keywords.get ⟨j, Nat.lt_trans hj hi⟩).2 (text.data.map lc) = false) →
        extract_seniority_level text = (seniority_keywords.get ⟨i, hi⟩).1)
    ∧ ((∀ e ∈ seniority_keywords, levelMatches e.2 (text.data.map lc) = false) →
        extract_seniority_level text = "mid")
    ∧ extract_seniority_level "junior developer, senior-level mentorship" = "junior"
    ∧ levelMatches ["senior", "sr", "lead", "principal", "staff", "expert"]
        ("junior developer, senior-level mentorship".data.map lc) = true := by
  refine ⟨?_, ?_, by decide, by decide⟩
  · intro i hi hp hprev
    rw [extract_seniority_level,
      find?_first (fun e => levelMatches e.2 (text.data.map lc)) seniority_keywords i hi hp hprev]
  · intro hall
    rw [extract_seniority_level, List.find?_eq_none.mpr (fun e he => by rw [hall e he]; decide)]

/-- Witness for C6's theorem: the first-match clause applied at level
index 0 (junior) on the sample input. -/
theorem c6_seniority_first_match_witness :
    extract_seniority_level "junior developer, senior-level mentorship" =
      (seniority_keywords.get ⟨0, by decide⟩).1 :=
  (c6_seniority_first_match "junior developer, senior-level mentorship").1 0 (by decide)
    (by decide) (fun j hj => absurd hj (Nat.not_lt_zero j))

/-- Claim C7 (confirmed): `"5+ years of experience"` yields `"5+ years"`,
`"3-5 years experience required"` yields `"3-5 years"` (both numeric
groups captured), and when no experience pattern matches the result is
`"Not specified"`. -/
theorem c7_experience :
    extract_years_of_experience "5+ years of experience" = "5+ years"
    ∧ extract_years_of_experience "3-5 years experience required" = "3-5 years"
    ∧ ∀ text : String, expSearch1 text = none → expSearch2 text = none →
        expSearch3 text = none → expSearch4 text = none →
        extract_years_of_experience text = "Not specified" := by
  refine ⟨by decide, by decide, ?_⟩
  intro text h1 h2 h3 h4
  rw [extract_years_of_experience, h1, h2, h3, h4]

/-- Witness for C7's theorem: no experience pattern matches `"hello"`. -/
theorem c7_experience_witness :
    extract_years_of_experience "hello" = "Not specified" :=
  c7_experience.2.2 "hello" rfl rfl rfl rfl

/-- Claim C8 (confirmed): `extract_skills` never returns duplicate
strings, and (the extraction being a pure function in this model) two
invocations on the same text agree as sets of strings. -/
theorem c8_skills_set (t1 t2 : String) :
    (extract_skills t1).Nodup
    ∧ (t1 = t2 → (extract_skills t1).toFinset = (extract_skills t2).toFinset) :=
  ⟨extract_skills_nodup t1, fun h => by rw [h]⟩

/-- Witness for C8's theorem on a concrete text. -/
theorem c8_skills_set_witness :
    (extract_skills "Python and aws").toFinset = (extract_skills "Python and aws").toFinset :=
  (c8_skills_set "Python and aws" "Python and aws").2 rfl

/-- Claim C9 (confirmed): `extract_location` always returns normally (the
`group(1)` access on the group-less keyword patterns is unreachable),
because any text containing `remote` case-insensitively also matches the
earlier City/State pattern. -/
theorem c9_location_total (text : String) :
    (extract_location text).isSome = true
    ∧ (containsSub "remote".data (text.data.map lc) = true →
        (searchML cityM text.data).isSome = true) :=
  ⟨extract_location_isSome text,
   fun h => contains_kw_city "remote".data 0 (by decide) (by decide) (by decide) (by decide)
     (by decide) text.data h⟩

/-- Witness for C9's theorem at the text `"Remote"`. -/
theorem c9_location_total_witness :
    (searchML cityM "Remote".data).isSome = true :=
  (c9_location_total "Remote").2 (by decide)

/-- Counterexample to claim C10 as stated: on `"great opportunity"` the
City/State heuristic matches `"great op"` (letter, greedy letter run,
whitespace, two letters), not `"great"` as the claim asserts. -/
theorem c10_counterexample :
    extract_location "great opportunity" = some "great op"
    ∧ "great op" ≠ "great" :=
  ⟨by decide, by decide⟩

/-- Claim C10 (corrected): there is an input with no location label, no
`based in` phrase and no remote/hybrid/on-site keyword on which
`extract_location` still returns a value other than `"Not specified"`:
on `"great opportunity"` the City/State pattern accepts the run of
letters and a following two-letter start, yielding `"great op"`. -/
theorem c10_city_false_positive :
    extract_location "great opportunity" = some "great op"
    ∧ "great op" ≠ "Not specified"
    ∧ containsSub "location".data ("great opportunity".data.map lc) = false
    ∧ containsSub "based in".data ("great opportunity".data.map lc) = false
    ∧ containsSub "remote".data ("great opportunity".data.map lc) = false
    ∧ containsSub "hybrid".data ("great opportunity".data.map lc) = false
    ∧ containsSub "on-site".data ("great opportunity".data.map lc) = false := by
  decide

/-- Claim C4, the algorithm as the claim states it (fragments of the
whole text are filtered, not only the first three): a second definition
following the claim's words, for comparison with `generate_summary`. -/
def summaryClaimC4 (text job_title : String) (skills : List String) : String :=
  (if ((sentenceSplit text).filter (fun s => 20 < (pstrip s).length)) = [] then
    "Looking for a " ++ job_title
  else
    joinSep ". "
      ((((sentenceSplit text).filter (fun s => 20 < (pstrip s).length)).map pstrip).take 2)) ++
  (if skills = [] then "" else " with expertise in " ++ joinSep ", " (skills.take 3) ++ ".")

/-- Counterexample to claim C4 as stated: the code inspects only
`sentences[:3]`.  Here the first three fragments are short and only the
fourth is long, so the code falls back to the template although a
fragment of the whole text qualifies. -/
theorem c4_counterexample :
    generate_summary "a. b. c. This fragment is long enough to qualify for sure." "T" []
      = "Looking for a T"
    ∧ summaryClaimC4 "a. b. c. This fragment is long enough to qualify for sure." "T" []
      = "This fragment is long enough to qualify for sure"
    ∧ ((sentenceSplit "a. b. c. This fragment is long enough to qualify for sure.").filter
        (fun s => 20 < (pstrip s).length)) ≠ [] := by
  refine ⟨by decide, by decide, by decide⟩

/-- Claim C4 (corrected): `generate_summary` splits at `.`/`!`/`?`
boundaries, keeps, among the FIRST THREE fragments only, those whose
trimmed length exceeds 20, joins the first two such trimmed fragments
with `". "`, and falls back to the templated sentence exactly when no
fragment among the first three qualifies. -/
theorem c4_summary_first_three (text job_title : String) (skills : List String) :
    generate_summary text job_title skills =
      (if (((sentenceSplit text).take 3).map pstrip).filter (fun s => 20 < s.length) = [] then
        "Looking for a " ++ job_title
      else
        joinSep ". "
          (((((sentenceSplit text).take 3).map pstrip).filter (fun s => 20 < s.length)).take 2)) ++
      (if skills = [] then "" else " with expertise in " ++ joinSep ", " (skills.take 3) ++ ".") := by
  have hcomm : (((sentenceSplit text).take 3).filter (fun s => 20 < (pstrip s).length)).map pstrip
      = (((sentenceSplit text).take 3).map pstrip).filter (fun s => 20 < s.length) := by
    rw [List.filter_map]
    rfl
  rw [generate_summary, summary_parts, hcomm]

set_option maxRecDepth 100000 in
set_option maxHeartbeats 4000000 in
/-- Counterexample to claim C1 as stated: on the repository's sample
posting, `parse` reports `seniorityLevel` `"mid"`, not `"senior"` (the
mid level's keyword `software engineer` is checked before any senior
keyword). -/
theorem c1_counterexample :
    (parse sample_job_description).bind (fun r => getField r "seniorityLevel")
      = some (JVal.s "mid")
    ∧ JVal.s "mid" ≠ JVal.s "senior" :=
  ⟨by decide, by decide⟩

set_option maxRecDepth 100000 in
set_option maxHeartbeats 4000000 in
/-- Claim C1 (corrected): on the sample posting `parse` yields
`seniorityLevel` `"mid"` (first matching level in table order),
`yearsOfExperience` `"5+ years"`, `requiredSkills` containing Python,
JavaScript, React, AWS, Docker and Kubernetes, and `preferredLocation`
equal to the first location pattern's stripped capture
`"San Francisco, CA (Hybrid work arrangement available)"`. -/
theorem c1_parse_sample :
    ∃ r, parse sample_job_description = some r
      ∧ getField r "seniorityLevel" = some (JVal.s "mid")
      ∧ getField r "yearsOfExperience" = some (JVal.s "5+ years")
      ∧ getField r "preferredLocation"
          = some (JVal.s "San Francisco, CA (Hybrid work arrangement available)")
      ∧ ∃ sk, getField r "requiredSkills" = some (JVal.arr sk)
          ∧ (["Python", "JavaScript", "React", "AWS", "Docker", "Kubernetes"].all
              (fun x => sk.contains x)) = true := by
  refine ⟨[("jobTitle", JVal.s "Senior Software Engineer - Full Stack Development"),
           ("seniorityLevel", JVal.s "mid"),
           ("requiredSkills", JVal.arr ["Python", "JavaScript", "React", "AWS", "Docker",
             "Kubernetes", "Agile", "Java", "Javascript", "Aws"]),
           ("yearsOfExperience", JVal.s "5+ years"),
           ("preferredLocation", JVal.s "San Francisco, CA (Hybrid work arrangement available)"),
           ("summary", JVal.s ("Senior Software Engineer - Full Stack Development\n    \n    We are seeking a Senior Software Engineer to join our dynamic team. The ideal candidate will have 5+ years of experience in full-stack development and be proficient in modern web technologies with expertise in Python, JavaScript, React."))],
          ?_, by decide, by decide, by decide,
          ⟨["Python", "JavaScript", "React", "AWS", "Docker",
             "Kubernetes", "Agile", "Java", "Javascript", "Aws"], by decide, by decide⟩⟩
  rfl

end JobParser

